import Mathlib

/-!
Verification development for the cluster evaluation engine of
`src/cluster/cluster.py` (distributed-clustering).

The Python module is embedded shallowly:

* a snippet source identifier is a natural number, a tag token is a string;
* the tag index maps a source to its tag phrase; the external helpers
  `stringToPhrase` and the separator normalisation live outside `src/`, so
  tags are embedded directly as their parsed token sequences (see the doc
  comments marked "Modelled from the spec");
* Python floats become rationals, list/dict iteration becomes structural
  recursion over association lists (sums and maxima computed by the loops do
  not depend on dictionary iteration order);
* fallible operations (dictionary lookups such as `tagindex[source]` and
  `count[bestMatch]`, and float division) are embedded in `Option`:
  a `none` result corresponds to the Python function raising an exception.

The external tree-construction / base-cluster / merge collaborators are out
of scope in the source module as well; `calcPrecisionRecallFMeasure` is
therefore embedded relative to their outputs: it receives the post-drop base
cluster list and the materialised final cluster list as parameters, exactly
at the boundary where the Python code receives them from its collaborators.
Elapsed wall-clock time is an opaque parameter.  The report-string helpers
(`make_options_string`, printing, file output) have no effect on the return
value and are omitted.
-/

abbrev Source : Type := Nat

abbrev Token : Type := String

/-- Tag index: maps a source identifier to its tag phrase.

Modelled from the spec: `TagIndex` is a read-only mapping from SourceID to a
raw hyphen-delimited tag string; the parsing helpers (`replace('-', ' ')`
and `stringToPhrase` from `text.phrases`) are external to `src/`, so each
tag is embedded directly as its parsed, ordered token sequence. -/
abbrev TagIndex : Type := List (Source × List Token)

/-- Ground-truth clusters: each category is a pair of its tag phrase (the
parsed category key) and its list of member sources. -/
abbrev GroundTruth : Type := List (List Token × List Source)

/-- A discovered cluster exposes its list of member sources
(`cluster.sources` in the Python code). -/
structure Cluster where
  sources : List Source
deriving DecidableEq, Repr

/-- Dictionary read `tagindex[source]`: `none` models the Python `KeyError`
when the source is missing from the tag index. -/
def lookupTag (tagindex : TagIndex) (source : Source) : Option (List Token) :=
  (tagindex.find? (fun entry => entry.1 == source)).map (fun entry => entry.2)

/-- The distinct elements of a list (each element kept once), modelling the
Python `set(...)` view of a list. -/
def distinct {α : Type} [DecidableEq α] : List α → List α
  | [] => []
  | x :: rest => if x ∈ rest then distinct rest else x :: distinct rest

/-- Modelled from the spec: the external `common` helper (from
`compactTrie.clustersPlus`, not under `src/`) returns the elements common to
all of the given sequences — an intersection over all sequences, not merely
pairwise.  Embedded as the distinct tokens of the first sequence that occur
in every other sequence (empty for an empty family). -/
def common : List (List Token) → List Token
  | [] => []
  | phrase :: rest =>
    rest.foldl (fun acc other => acc.filter (fun token => other.contains token))
      (distinct phrase)

/-- The tag-phrase list built by the Python loops
`for source in cluster.sources: tagList.append(stringToPhrase(...))`;
fails (`none`) when some source is missing from the tag index. -/
def tagListOf (tagindex : TagIndex) : List Source → Option (List (List Token))
  | [] => some []
  | s :: rest =>
    (lookupTag tagindex s).bind (fun tag =>
      (tagListOf tagindex rest).map (fun tags => tag :: tags))

/-- Tag match depth of a cluster on its own (no category voter), as computed
inside `calc_tag_accuracy`: the number of tokens common to all of the
cluster's source tag phrases. -/
def clusterTagDepth (tagindex : TagIndex) (cluster : Cluster) : Option Nat :=
  (tagListOf tagindex cluster.sources).map (fun tagList => (common tagList).length)

/-- Tag match depth of a cluster against a ground-truth category phrase, as
computed inside `calc_ground_truth` / `calc_gt_represented`: the category's
own phrase is appended to the voter list. -/
def clusterDepthWith (tagindex : TagIndex) (cluster : Cluster) (phrase : List Token) :
    Option Nat :=
  (tagListOf tagindex cluster.sources).map
    (fun tagList => (common (tagList ++ [phrase])).length)

/-- `contains(list1, list2)` — `list1` contains `list2`: every element of
`list2` occurs in `list1` (the Python loop short-circuits on the first
missing element; the value is the same). -/
def contains (list1 list2 : List Source) : Bool :=
  list2.all (fun x => list1.contains x)

/-- `equal(list1, list2)` — mutual containment. -/
def equal (list1 list2 : List Source) : Bool :=
  contains list1 list2 && contains list2 list1

/-- `len(set(sources) & set(clusterSources))`: the number of distinct
elements of `sources` that also occur in `clusterSources`. -/
def intersectionLength (sources clusterSources : List Source) : Nat :=
  ((distinct sources).filter (fun s => clusterSources.contains s)).length

/-- `dropSingletonGroundTruthClusters`: keep only the categories with more
than one member. -/
def dropSingletonGroundTruthClusters (gtcIndex : GroundTruth) : GroundTruth :=
  gtcIndex.filter (fun entry => entry.2.length > 1)

/-- `count[bestMatch] += 1` on the rank dictionary `{0:_,1:_,2:_,3:_,4:_,5:_}`:
fails (`KeyError`) when the match depth is outside `0..5`. -/
def bump (count : Nat → Nat) (bestMatch : Nat) : Option (Nat → Nat) :=
  if bestMatch ≤ 5 then
    some (fun i => if i = bestMatch then count i + 1 else count i)
  else none

/-- Total of the six rank buckets. -/
def totalCount (count : Nat → Nat) : Nat :=
  count 0 + count 1 + count 2 + count 3 + count 4 + count 5

/-- `p = 0; for k in range(i, 6): p += count[k]`. -/
def pAbove (count : Nat → Nat) (i : Nat) : Nat :=
  ((List.range' i (6 - i)).map count).sum

/-- The row loop shared verbatim by `calc_ground_truth` and
`calc_gt_represented`:
`for i in (5,4,3,2,1,0): append((5-i, count[i], count[i]/den, p/den))`. -/
def histogramRows (count : Nat → Nat) (denominator : Nat) : List (List ℚ) :=
  ([5, 4, 3, 2, 1, 0] : List Nat).map (fun i =>
    [((5 - i : Nat) : ℚ), (count i : ℚ), (count i : ℚ) / (denominator : ℚ),
      (pAbove count i : ℚ) / (denominator : ℚ)])

/-- The `count`/`countMatch` column (index 1) of a histogram result, summed
over all rows. -/
def countColumn (rows : List (List ℚ)) : ℚ :=
  (rows.map (fun row => row.getD 1 0)).sum

/-- Inner loop of `count_match` in `calc_tag_accuracy`: counts the clusters
whose own tag-overlap depth equals `5 - discrepancy`. -/
def count_matchLoop (tagindex : TagIndex) (discrepancy : Nat) :
    List Cluster → Nat → Option Nat
  | [], count => some count
  | cluster :: rest, count =>
    (tagListOf tagindex cluster.sources).bind (fun tagList =>
      count_matchLoop tagindex discrepancy rest
        (if (common tagList).length = 5 - discrepancy then count + 1 else count))

/-- `count_match(discrepancy)` of `calc_tag_accuracy`. -/
def count_match (clusters : List Cluster) (tagindex : TagIndex) (discrepancy : Nat) :
    Option Nat :=
  count_matchLoop tagindex discrepancy clusters 0

/-- `p = 0; for k in range(i): p += count_match(k)`. -/
def pSum (clusters : List Cluster) (tagindex : TagIndex) : Nat → Option Nat
  | 0 => some 0
  | k + 1 =>
    (pSum clusters tagindex k).bind (fun p =>
      (count_match clusters tagindex k).map (fun c => p + c))

/-- Row loop of `calc_tag_accuracy`: one row
`(i, countMatch, countMatch/n, (p+countMatch)/n)` per discrepancy `i`. -/
def tagAccuracyLoop (clusters : List Cluster) (tagindex : TagIndex) (noOfClusters : Nat) :
    List Nat → Option (List (List ℚ))
  | [] => some []
  | i :: rest =>
    (count_match clusters tagindex i).bind (fun countMatch =>
      (pSum clusters tagindex i).bind (fun p =>
        (tagAccuracyLoop clusters tagindex noOfClusters rest).map (fun rows =>
          [(i : ℚ), (countMatch : ℚ), (countMatch : ℚ) / (noOfClusters : ℚ),
            ((p + countMatch : Nat) : ℚ) / (noOfClusters : ℚ)] :: rows)))

/-- `calc_tag_accuracy(clusters, noOfClusters, groundTruthClusters, tagindex)`.
The ground-truth argument is unused, exactly as in the source.  A zero
`noOfClusters` makes every row's float division raise, hence `none`. -/
def calc_tag_accuracy (clusters : List Cluster) (noOfClusters : Nat)
    (groundTruthClusters : GroundTruth) (tagindex : TagIndex) :
    Option (List (List ℚ)) :=
  if noOfClusters = 0 then none
  else tagAccuracyLoop clusters tagindex noOfClusters [0, 1, 2, 3, 4, 5]

/-- Best-match loop of `calc_ground_truth` (cluster-driven): scan the
ground-truth categories, keep a category only if
`contains(cluster.sources, groundTruthClusters[gtcKey])`, and retain the
maximum tag-overlap depth (`>` strictly advances). -/
def bestMatchGTLoop (tagindex : TagIndex) (cluster : Cluster) :
    GroundTruth → Nat → Option Nat
  | [], bestMatch => some bestMatch
  | entry :: rest, bestMatch =>
    if contains cluster.sources entry.2 then
      (tagListOf tagindex cluster.sources).bind (fun tagList =>
        let d := (common (tagList ++ [entry.1])).length
        bestMatchGTLoop tagindex cluster rest (if d > bestMatch then d else bestMatch))
    else bestMatchGTLoop tagindex cluster rest bestMatch

/-- Counting loop of `calc_ground_truth`: one bucket increment per cluster. -/
def gtCountLoop (groundTruthClusters : GroundTruth) (tagindex : TagIndex) :
    List Cluster → (Nat → Nat) → Option (Nat → Nat)
  | [], count => some count
  | cluster :: rest, count =>
    (bestMatchGTLoop tagindex cluster groundTruthClusters 0).bind (fun bestMatch =>
      (bump count bestMatch).bind (fun count' =>
        gtCountLoop groundTruthClusters tagindex rest count'))

/-- `calc_ground_truth(clusters, noOfClusters, groundTruthClusters, tagindex)`. -/
def calc_ground_truth (clusters : List Cluster) (noOfClusters : Nat)
    (groundTruthClusters : GroundTruth) (tagindex : TagIndex) :
    Option (List (List ℚ)) :=
  (gtCountLoop groundTruthClusters tagindex clusters (fun _ => 0)).bind (fun count =>
    if noOfClusters = 0 then none else some (histogramRows count noOfClusters))

/-- Best-match loop of `calc_gt_represented` (category-driven): scan the
clusters, keep a cluster only if
`contains(cluster.sources, groundTruthClusters[gtcKey])` — i.e. only if the
category's sources are all inside the cluster's sources — and retain the
maximum tag-overlap depth. -/
def bestMatchRepLoop (tagindex : TagIndex) (entry : List Token × List Source) :
    List Cluster → Nat → Option Nat
  | [], bestMatch => some bestMatch
  | cluster :: rest, bestMatch =>
    if contains cluster.sources entry.2 then
      (tagListOf tagindex cluster.sources).bind (fun tagList =>
        let d := (common (tagList ++ [entry.1])).length
        bestMatchRepLoop tagindex entry rest (if d > bestMatch then d else bestMatch))
    else bestMatchRepLoop tagindex entry rest bestMatch

/-- Counting loop of `calc_gt_represented`: one bucket increment per
ground-truth category. -/
def repCountLoop (clusters : List Cluster) (tagindex : TagIndex) :
    GroundTruth → (Nat → Nat) → Option (Nat → Nat)
  | [], count => some count
  | entry :: rest, count =>
    (bestMatchRepLoop tagindex entry clusters 0).bind (fun bestMatch =>
      (bump count bestMatch).bind (fun count' =>
        repCountLoop clusters tagindex rest count'))

/-- `calc_gt_represented(clusters, noOfClusters, groundTruthClusters, tagindex)`.
The `noOfClusters` argument is unused, exactly as in the source: the row
fractions divide by `len(groundTruthClusters)`. -/
def calc_gt_represented (clusters : List Cluster) (noOfClusters : Nat)
    (groundTruthClusters : GroundTruth) (tagindex : TagIndex) :
    Option (List (List ℚ)) :=
  (repCountLoop clusters tagindex groundTruthClusters (fun _ => 0)).bind (fun count =>
    if groundTruthClusters.length = 0 then none
    else some (histogramRows count groundTruthClusters.length))

/-- Row loop of `calc_f_measure`: reads the fraction column (index 2) of the
two histogram results; the guard skips the computation only when precision
and recall are both zero, otherwise a zero denominator raises. -/
def fMeasureLoop (groundTruth groundTruthRep : List (List ℚ)) (fBetaConstant : ℚ) :
    List Nat → Option (List (List ℚ))
  | [] => some []
  | i :: rest =>
    (groundTruth[i]?).bind (fun gtRow =>
      (groundTruthRep[i]?).bind (fun repRow =>
        (gtRow[2]?).bind (fun precision =>
          (repRow[2]?).bind (fun recallValue =>
            (gtRow[0]?).bind (fun idx =>
              (if precision = 0 ∧ recallValue = 0 then some (0 : ℚ)
               else
                 let denominator := fBetaConstant ^ 2 * precision + recallValue
                 if denominator = 0 then none
                 else some ((1 + fBetaConstant ^ 2) *
                   (precision * recallValue / denominator))).bind (fun fMeasure =>
                (fMeasureLoop groundTruth groundTruthRep fBetaConstant rest).map
                  (fun rows => [idx, fMeasure] :: rows)))))))

/-- `calc_f_measure(groundTruth, groundTruthRep, fBetaConstant)`. -/
def calc_f_measure (groundTruth groundTruthRep : List (List ℚ)) (fBetaConstant : ℚ) :
    Option (List (List ℚ)) :=
  fMeasureLoop groundTruth groundTruthRep fBetaConstant (List.range groundTruth.length)

/-- Inner loop of `calc_overall_precision`: maximum of
`|Gi ∩ Sj| / len(Sj)` over the clusters; an empty cluster raises
(unguarded float division). -/
def maxPrecisionLoop (sources : List Source) : List Cluster → ℚ → Option ℚ
  | [], maxPrecision => some maxPrecision
  | cluster :: rest, maxPrecision =>
    if cluster.sources.length = 0 then none
    else
      let precision : ℚ :=
        (intersectionLength sources cluster.sources : ℚ) / (cluster.sources.length : ℚ)
      maxPrecisionLoop sources rest (if precision > maxPrecision then precision else maxPrecision)

/-- Outer loop of `calc_overall_precision`: accumulates
`categoryFactor * maxPrecision`; a zero source total raises on the first
category factor. -/
def overallPrecisionLoop (clusters : List Cluster) (noOfSources : Nat) :
    GroundTruth → ℚ → Option ℚ
  | [], overallPrecision => some overallPrecision
  | entry :: rest, overallPrecision =>
    if noOfSources = 0 then none
    else
      let categoryFactor : ℚ := (entry.2.length : ℚ) / (noOfSources : ℚ)
      (maxPrecisionLoop entry.2 clusters 0).bind (fun maxPrecision =>
        overallPrecisionLoop clusters noOfSources rest
          (overallPrecision + categoryFactor * maxPrecision))

/-- `calc_overall_precision(groundTruthClusters, clusters, noOfSources)`. -/
def calc_overall_precision (groundTruthClusters : GroundTruth) (clusters : List Cluster)
    (noOfSources : Nat) : Option ℚ :=
  overallPrecisionLoop clusters noOfSources groundTruthClusters 0

/-- Inner loop of `calc_overall_recall`: maximum of
`|Gi ∩ Sj| / len(sources)` over the clusters; the only division is by the
category size, so it raises exactly when the category is empty (and at least
one cluster is scanned). -/
def maxRecallLoop (sources : List Source) : List Cluster → ℚ → Option ℚ
  | [], maxRecall => some maxRecall
  | cluster :: rest, maxRecall =>
    if sources.length = 0 then none
    else
      let recallValue : ℚ :=
        (intersectionLength sources cluster.sources : ℚ) / (sources.length : ℚ)
      maxRecallLoop sources rest (if recallValue > maxRecall then recallValue else maxRecall)

/-- Outer loop of `calc_overall_recall`. -/
def overallRecallLoop (clusters : List Cluster) (noOfSources : Nat) :
    GroundTruth → ℚ → Option ℚ
  | [], overallRecall => some overallRecall
  | entry :: rest, overallRecall =>
    if noOfSources = 0 then none
    else
      let categoryFactor : ℚ := (entry.2.length : ℚ) / (noOfSources : ℚ)
      (maxRecallLoop entry.2 clusters 0).bind (fun maxRecall =>
        overallRecallLoop clusters noOfSources rest
          (overallRecall + categoryFactor * maxRecall))

/-- `calc_overall_recall(groundTruthClusters, clusters, noOfSources)`. -/
def calc_overall_recall (groundTruthClusters : GroundTruth) (clusters : List Cluster)
    (noOfSources : Nat) : Option ℚ :=
  overallRecallLoop clusters noOfSources groundTruthClusters 0

/-- Inner loop of `calc_overall_fmeasure`.  Faithful to the source line
`fBetaConstant = math.pow(fBetaConstant, 2)`: the beta constant is a
function-level variable that is replaced by its square at every (category,
cluster) pair, so the squared value is threaded through as loop state.  The
per-pair precision and recall divisions are unguarded; only the F-measure
denominator is guarded. -/
def maxFMeasureLoop (sources : List Source) : List Cluster → ℚ → ℚ → Option (ℚ × ℚ)
  | [], maxFMeasure, fBetaConstant => some (maxFMeasure, fBetaConstant)
  | cluster :: rest, maxFMeasure, fBetaConstant =>
    if cluster.sources.length = 0 then none
    else if sources.length = 0 then none
    else
      let i : ℚ := (intersectionLength sources cluster.sources : ℚ)
      let precision := i / (cluster.sources.length : ℚ)
      let recallValue := i / (sources.length : ℚ)
      let fBetaSquared := fBetaConstant ^ 2
      let fMeasureNum := (fBetaSquared + 1) * precision * recallValue
      let fMeasureDen := fBetaSquared * precision + recallValue
      let fMeasure := if fMeasureDen = 0 then 0 else fMeasureNum / fMeasureDen
      maxFMeasureLoop sources rest
        (if fMeasure > maxFMeasure then fMeasure else maxFMeasure) fBetaSquared

/-- Outer loop of `calc_overall_fmeasure`; the (repeatedly squared) beta
constant survives across categories. -/
def overallFMeasureLoop (clusters : List Cluster) (noOfSources : Nat) :
    GroundTruth → ℚ → ℚ → Option ℚ
  | [], overallFMeasure, _ => some overallFMeasure
  | entry :: rest, overallFMeasure, fBetaConstant =>
    if noOfSources = 0 then none
    else
      let categoryFactor : ℚ := (entry.2.length : ℚ) / (noOfSources : ℚ)
      (maxFMeasureLoop entry.2 clusters 0 fBetaConstant).bind (fun result =>
        overallFMeasureLoop clusters noOfSources rest
          (overallFMeasure + categoryFactor * result.1) result.2)

/-- `calc_overall_fmeasure(groundTruthClusters, clusters, noOfSources,
fBetaConstant)`. -/
def calc_overall_fmeasure (groundTruthClusters : GroundTruth) (clusters : List Cluster)
    (noOfSources : Nat) (fBetaConstant : ℚ) : Option ℚ :=
  overallFMeasureLoop clusters noOfSources groundTruthClusters 0 fBetaConstant

/-- The per-pair F-measure exactly as the specification words it:
`fMeasure = (1+β²)·precision·recall / (β²·precision + recall)`, defined as 0
when the denominator is 0. -/
def fMeasureSpec (beta precision recallValue : ℚ) : ℚ :=
  if beta ^ 2 * precision + recallValue = 0 then 0
  else (1 + beta ^ 2) * precision * recallValue / (beta ^ 2 * precision + recallValue)

/-- The overall F-measure exactly as the specification words it, with the
single caller-supplied beta constant used at every (category, cluster) pair:
`Σi (|Gi|/noOfSources) · max_j fMeasure(i,j)`.  Stated for comparison with
the embedded `calc_overall_fmeasure`. -/
def overall_fmeasure_spec (groundTruthClusters : GroundTruth) (clusters : List Cluster)
    (noOfSources : Nat) (beta : ℚ) : ℚ :=
  (groundTruthClusters.map (fun entry =>
    ((entry.2.length : ℚ) / (noOfSources : ℚ)) *
      ((clusters.map (fun cluster =>
        fMeasureSpec beta
          ((intersectionLength entry.2 cluster.sources : ℚ) / (cluster.sources.length : ℚ))
          ((intersectionLength entry.2 cluster.sources : ℚ) / (entry.2.length : ℚ)))).foldl
        max 0))).sum

/-- `getOverlapResultTuple(resultsGroundTruth, position)`: one entry per
row — the column at index `position`. -/
def getOverlapResultTuple : List (List ℚ) → Nat → Option (List ℚ)
  | [], _ => some []
  | row :: rest, position =>
    (row[position]?).bind (fun value =>
      (getOverlapResultTuple rest position).map (fun values => value :: values))

/-- The five-part result tuple of `calcPrecisionRecallFMeasure`. -/
structure EvalResult where
  timing : ℚ × Nat × Nat
  overall : ℚ × ℚ × ℚ
  groundTruthTuple : List ℚ
  groundTruthRepTuple : List ℚ
  fMeasureTuple : List ℚ
deriving DecidableEq, Repr

/-- The all-zero result tuple returned on the two short-circuit exits. -/
def zeroResultTuple (timeToCluster : ℚ) (noOfBaseClusters : Nat) : EvalResult :=
  ⟨(timeToCluster, 0, noOfBaseClusters), (0, 0, 0),
    [0, 0, 0, 0, 0], [0, 0, 0, 0, 0], [0, 0, 0, 0, 0]⟩

/-- `calcPrecisionRecallFMeasure`, embedded at the collaborator boundary:
`baseClusters` is the base-cluster list after the optional singleton drop,
`clusters` the materialised final cluster list after its optional drops, and
`timeToCluster` the measured elapsed time.  The report strings and their
console/file output have no effect on the returned value and are omitted. -/
def calcPrecisionRecallFMeasure (dropSingletonGT : Bool) (tagIndex : TagIndex)
    (groundTruthClustersIn : GroundTruth) (fBetaConstant : ℚ) (timeToCluster : ℚ)
    (baseClusters : List (List Source)) (clusters : List Cluster) : Option EvalResult :=
  let groundTruthClusters :=
    if dropSingletonGT then dropSingletonGroundTruthClusters groundTruthClustersIn
    else groundTruthClustersIn
  let noOfBaseClusters := baseClusters.length
  if noOfBaseClusters = 0 then some (zeroResultTuple timeToCluster noOfBaseClusters)
  else
    let noOfSources := tagIndex.length
    let noOfClusters := clusters.length
    if noOfClusters = 0 then some (zeroResultTuple timeToCluster noOfBaseClusters)
    else
      (calc_tag_accuracy clusters noOfClusters groundTruthClusters tagIndex).bind
        (fun _resultsTagAccuracy =>
      (calc_ground_truth clusters noOfClusters groundTruthClusters tagIndex).bind
        (fun resultsGroundTruth =>
      (calc_gt_represented clusters noOfClusters groundTruthClusters tagIndex).bind
        (fun resultsGroundTruthRep =>
      (calc_f_measure resultsGroundTruth resultsGroundTruthRep fBetaConstant).bind
        (fun resultsFMeasure =>
      (calc_overall_precision groundTruthClusters clusters noOfSources).bind
        (fun precision =>
      (calc_overall_recall groundTruthClusters clusters noOfSources).bind
        (fun recallValue =>
      (calc_overall_fmeasure groundTruthClusters clusters noOfSources fBetaConstant).bind
        (fun fMeasure =>
      (getOverlapResultTuple resultsGroundTruth 2).bind (fun groundTruthTuple =>
      (getOverlapResultTuple resultsGroundTruthRep 2).bind (fun groundTruthRepTuple =>
      (getOverlapResultTuple resultsFMeasure 1).map (fun fMeasureTuple =>
        ⟨(timeToCluster, noOfClusters, noOfBaseClusters),
          (precision, recallValue, fMeasure),
          groundTruthTuple, groundTruthRepTuple, fMeasureTuple⟩))))))))))

/-- Total membership over all ground-truth categories (`Σi |Gi|`, counted
with list multiplicity). -/
def sumLens (groundTruthClusters : GroundTruth) : Nat :=
  (groundTruthClusters.map (fun entry => entry.2.length)).sum

/-- The spec's concrete scenario: tag index
`{a: "news-politics", b: "news-politics", c: "sports-news"}` with
`a, b, c` embedded as `1, 2, 3` and tags as their parsed phrases. -/
def scenarioTagIndex : TagIndex :=
  [(1, ["news", "politics"]), (2, ["news", "politics"]), (3, ["sports", "news"])]

/-- The spec's concrete scenario ground truth
`{"news-politics": {a, b}, "sports-news": {c}}`. -/
def scenarioGroundTruth : GroundTruth :=
  [(["news", "politics"], [1, 2]), (["sports", "news"], [3])]

/-- The spec's concrete scenario: one discovered cluster with sources
`{a, b}`. -/
def scenarioClusters : List Cluster := [⟨[1, 2]⟩]

/-- C1: at the failing input the code's overall F-measure disagrees with the
specification formula.  The source line
`fBetaConstant = math.pow(fBetaConstant, 2)` inside the cluster loop replaces
the caller-supplied beta constant by its square at every (category, cluster)
pair, so later pairs use β⁴, β⁸, …, contradicting the function's own
docstring (the cited overall-F-measure article formula, which uses one fixed
β).  Ground truth `{g1: {1}, g2: {2}}`, clusters `[{1}, {1,2}]`,
`noOfSources = 2`, `β = 2`: the code returns `131075/131076` while the
specification's formula gives `11/12`. -/
theorem fbeta_reuse_code_bug :
    calc_overall_fmeasure [(["g1"], [1]), (["g2"], [2])] [⟨[1]⟩, ⟨[1, 2]⟩] 2 2 =
        some (131075 / 131076 : ℚ) ∧
      overall_fmeasure_spec [(["g1"], [1]), (["g2"], [2])] [⟨[1]⟩, ⟨[1, 2]⟩] 2 2 =
        (11 / 12 : ℚ) ∧
      (131075 / 131076 : ℚ) ≠ (11 / 12 : ℚ) := by
  refine ⟨?_, ?_, by norm_num⟩
  · norm_num +decide [calc_overall_fmeasure, overallFMeasureLoop, maxFMeasureLoop,
      intersectionLength, distinct]
  · norm_num +decide [overall_fmeasure_spec, fMeasureSpec, intersectionLength, distinct]

/-- C2 (counterexample): in the spec's concrete scenario
(`tagIndex = {1: news-politics, 2: news-politics, 3: sports-news}`,
ground truth `{news-politics: {1,2}, sports-news: {3}}`, one cluster
`{1,2}`, `noOfSources = 3`) the code's overall precision is `2/3`, not the
claimed `1.0`: the category `sports-news` contributes weight `1/3` at
maximum precision `0`, and `news-politics` weight `2/3` at precision `1`. -/
theorem overall_precision_scenario_counterexample :
    calc_overall_precision scenarioGroundTruth scenarioClusters 3 = some (2 / 3 : ℚ) ∧
      (2 / 3 : ℚ) ≠ 1 := by
  refine ⟨?_, by norm_num⟩
  norm_num +decide [calc_overall_precision, overallPrecisionLoop, maxPrecisionLoop,
    intersectionLength, distinct, scenarioGroundTruth, scenarioClusters]

/-- C2 (amended): in the spec's concrete scenario the code returns overall
precision `2/3` (not `1.0`), overall recall `2/3` as claimed, and
`calc_gt_represented` places the category `sports-news` in the rank-0
(no-overlap) bucket: the depth-0 row (emitted last, with printed overlap
index `5 - 0 = 5`) has count `1`, while `news-politics` lands at depth 2. -/
theorem scenario_metrics_amended :
    calc_overall_precision scenarioGroundTruth scenarioClusters 3 = some (2 / 3 : ℚ) ∧
      calc_overall_recall scenarioGroundTruth scenarioClusters 3 = some (2 / 3 : ℚ) ∧
      calc_gt_represented scenarioClusters 1 scenarioGroundTruth scenarioTagIndex =
        some [[0, 0, 0, 0], [1, 0, 0, 0], [2, 0, 0, 0],
          [3, 1, 1 / 2, 1 / 2], [4, 0, 0, 1 / 2], [5, 1, 1 / 2, 1]] := by
  refine ⟨?_, ?_, ?_⟩
  · norm_num +decide [calc_overall_precision, overallPrecisionLoop, maxPrecisionLoop,
      intersectionLength, distinct, scenarioGroundTruth, scenarioClusters]
  · norm_num +decide [calc_overall_recall, overallRecallLoop, maxRecallLoop,
      intersectionLength, distinct, scenarioGroundTruth, scenarioClusters]
  · norm_num +decide [calc_gt_represented, repCountLoop, bestMatchRepLoop, tagListOf,
      lookupTag, common, contains, bump, histogramRows, pAbove, List.range', distinct,
      scenarioClusters, scenarioGroundTruth, scenarioTagIndex]

/-- C3 (counterexample): with a source belonging to both ground-truth
categories the category weights sum to 2 and both overall precision and
overall recall evaluate to `2 > 1`, although the cluster list and the ground
truth are non-empty and every source set is non-empty.  Ground truth
`{t1: {1,2}, t2: {1,2}}`, clusters `[{1,2}]`, `noOfSources = 2`. -/
theorem overall_bounds_counterexample :
    calc_overall_precision [(["t1"], [1, 2]), (["t2"], [1, 2])] [⟨[1, 2]⟩] 2 =
        some (2 : ℚ) ∧
      calc_overall_recall [(["t1"], [1, 2]), (["t2"], [1, 2])] [⟨[1, 2]⟩] 2 =
        some (2 : ℚ) ∧
      ¬((2 : ℚ) ≤ 1) := by
  refine ⟨?_, ?_, by norm_num⟩
  · norm_num +decide [calc_overall_precision, overallPrecisionLoop, maxPrecisionLoop,
      intersectionLength, distinct]
  · norm_num +decide [calc_overall_recall, overallRecallLoop, maxRecallLoop,
      intersectionLength, distinct]

/-- C4 (counterexample): for ground truth `{t: {1}}`, one cluster `{1,2}`
and tag index `{1: t, 2: t}`, no cluster's sources are contained in the
driving category's sources (`contains([1], [1,2])` is false), so under the
claim's qualification direction the category's best match depth would be 0;
but `calc_gt_represented` counts the cluster as qualifying (the code tests
`contains(cluster.sources, category.sources)`, the converse direction) and
puts the category in the depth-1 bucket, leaving the depth-0 bucket empty. -/
theorem gt_represented_direction_counterexample :
    contains ([1] : List Source) [1, 2] = false ∧
      calc_gt_represented [⟨[1, 2]⟩] 1 [(["t"], [1])] [(1, ["t"]), (2, ["t"])] =
        some [[0, 0, 0, 0], [1, 0, 0, 0], [2, 0, 0, 0], [3, 0, 0, 0],
          [4, 1, 1, 1], [5, 0, 0, 1]] := by
  refine ⟨by decide, ?_⟩
  norm_num +decide [calc_gt_represented, repCountLoop, bestMatchRepLoop, tagListOf,
    lookupTag, common, contains, bump, histogramRows, pAbove, List.range', distinct]

/-- C7 (counterexample): one cluster whose single source carries six tag
tokens has match depth 6, which falls in no 0–5 bucket of
`calc_tag_accuracy`; the computation succeeds, yet the count column sums to
0 while the driving partition has 1 cluster. -/
theorem tag_accuracy_sum_counterexample :
    calc_tag_accuracy [⟨[1]⟩] 1 [] [(1, ["t1", "t2", "t3", "t4", "t5", "t6"])] =
        some [[0, 0, 0, 0], [1, 0, 0, 0], [2, 0, 0, 0], [3, 0, 0, 0],
          [4, 0, 0, 0], [5, 0, 0, 0]] ∧
      countColumn [[0, 0, 0, 0], [1, 0, 0, 0], [2, 0, 0, 0], [3, 0, 0, 0],
          [4, 0, 0, 0], [5, 0, 0, 0]] = 0 ∧
      (0 : ℚ) ≠ (([⟨[1]⟩] : List Cluster).length : ℚ) := by
  refine ⟨?_, by norm_num [countColumn], by norm_num⟩
  norm_num +decide [calc_tag_accuracy, tagAccuracyLoop, count_match, count_matchLoop, pSum,
    tagListOf, lookupTag, common, distinct]

/-- C8 (counterexample): with ground truth `{t: {1}}` (non-empty category)
and a single empty cluster, `calc_overall_recall` returns `0.0` normally
(its only divisions are by the category sizes), while
`calc_overall_fmeasure` hits the unguarded division
`intersectionLength / len(cluster.sources)` and fails — the exact opposite
of the claim on both functions. -/
theorem fmeasure_empty_cluster_counterexample :
    calc_overall_recall [(["t"], [1])] [⟨[]⟩] 1 = some (0 : ℚ) ∧
      calc_overall_fmeasure [(["t"], [1])] [⟨[]⟩] 1 1 = none := by
  refine ⟨?_, ?_⟩
  · norm_num +decide [calc_overall_recall, overallRecallLoop, maxRecallLoop,
      intersectionLength, distinct]
  · norm_num +decide [calc_overall_fmeasure, overallFMeasureLoop, maxFMeasureLoop,
      intersectionLength, distinct]

/-- C5 (counterexample): an evaluation that reaches the normal return (the
spec's concrete scenario, with one base cluster) yields third, fourth and
fifth components with six entries each — one per histogram row — not
two-, two- and one-element tuples. -/
theorem result_tuple_arity_counterexample :
    (calcPrecisionRecallFMeasure false scenarioTagIndex scenarioGroundTruth 1 0
        [[1, 2]] scenarioClusters).map (fun result =>
          (result.groundTruthTuple.length, result.groundTruthRepTuple.length,
            result.fMeasureTuple.length)) = some (6, 6, 6) ∧
      some ((6, 6, 6) : Nat × Nat × Nat) ≠ some ((2, 2, 1) : Nat × Nat × Nat) := by
  refine ⟨?_, by decide⟩
  norm_num +decide [calcPrecisionRecallFMeasure, calc_tag_accuracy, tagAccuracyLoop,
    count_match, count_matchLoop, pSum, calc_ground_truth, gtCountLoop, bestMatchGTLoop,
    calc_gt_represented, repCountLoop, bestMatchRepLoop, calc_f_measure, fMeasureLoop,
    calc_overall_precision, overallPrecisionLoop, maxPrecisionLoop,
    calc_overall_recall, overallRecallLoop, maxRecallLoop,
    calc_overall_fmeasure, overallFMeasureLoop, maxFMeasureLoop,
    getOverlapResultTuple, histogramRows, pAbove, bump, contains, tagListOf, lookupTag,
    common, distinct, intersectionLength, List.range', List.range, List.range.loop,
    scenarioTagIndex, scenarioGroundTruth, scenarioClusters]

/-- C9: `contains(x, y)` is true iff every element of `y` occurs in `x`;
hence `contains(x, [])` holds for every `x` and `contains(s, s)` for every
`s`, and `equal(a, b)` holds iff `a` and `b` have identical element sets —
all statements independent of the input ordering, since only membership is
quantified. -/
theorem contains_equal_properties :
    ∀ (x y a b : List Source),
      (contains x y = true ↔ ∀ e ∈ y, e ∈ x) ∧
      contains x ([] : List Source) = true ∧
      contains a a = true ∧
      (equal a b = true ↔ ∀ e : Source, e ∈ a ↔ e ∈ b) := by
  intro x y a b
  refine ⟨?_, rfl, ?_, ?_⟩
  · simp [contains]
  · simp [contains]
  · simp only [equal, Bool.and_eq_true, contains, List.all_eq_true, List.elem_eq_mem,
      decide_eq_true_eq]
    constructor
    · rintro ⟨h1, h2⟩ e
      exact ⟨fun he => h2 e he, fun he => h1 e he⟩
    · intro h
      exact ⟨fun e he => (h e).mpr he, fun e he => (h e).mp he⟩

/-- C6: whenever the (post-drop) base-cluster list is empty,
`calcPrecisionRecallFMeasure` short-circuits to the all-zero result tuple
`((elapsedTime, 0, 0), (0,0,0), (0,0,0,0,0), (0,0,0,0,0), (0,0,0,0,0))`
without computing any metric. -/
theorem empty_base_clusters_short_circuit :
    ∀ (dropSingletonGT : Bool) (tagIndex : TagIndex) (groundTruthClustersIn : GroundTruth)
      (fBetaConstant timeToCluster : ℚ) (baseClusters : List (List Source))
      (clusters : List Cluster),
      baseClusters.length = 0 →
      calcPrecisionRecallFMeasure dropSingletonGT tagIndex groundTruthClustersIn
          fBetaConstant timeToCluster baseClusters clusters =
        some ⟨(timeToCluster, 0, 0), (0, 0, 0), [0, 0, 0, 0, 0], [0, 0, 0, 0, 0],
          [0, 0, 0, 0, 0]⟩ := by
  intro dropSingletonGT tagIndex groundTruthClustersIn fBetaConstant timeToCluster
    baseClusters clusters h
  simp [calcPrecisionRecallFMeasure, h, zeroResultTuple]

/-- C6 witness: concrete instantiation of the short-circuit theorem. -/
theorem empty_base_clusters_short_circuit_witness :
    (([] : List (List Source)).length = 0) ∧
      calcPrecisionRecallFMeasure false scenarioTagIndex scenarioGroundTruth 1 0 []
          scenarioClusters =
        some ⟨((0 : ℚ), 0, 0), (0, 0, 0), [0, 0, 0, 0, 0], [0, 0, 0, 0, 0],
          [0, 0, 0, 0, 0]⟩ :=
  ⟨rfl, empty_base_clusters_short_circuit false scenarioTagIndex scenarioGroundTruth 1 0 []
    scenarioClusters rfl⟩

/-- Helper: `getOverlapResultTuple` produces one entry per input row. -/
theorem getOverlapResultTuple_length :
    ∀ (rows : List (List ℚ)) (position : Nat) (out : List ℚ),
      getOverlapResultTuple rows position = some out → out.length = rows.length := by
  intro rows position
  induction rows with
  | nil =>
    intro out h
    simp only [getOverlapResultTuple, Option.some.injEq] at h
    simp [← h]
  | cons row rest ih =>
    intro out h
    simp only [getOverlapResultTuple, Option.bind_eq_some, Option.map_eq_some'] at h
    obtain ⟨v, _, out', hout', rfl⟩ := h
    simp [ih out' hout']

/-- Helper: `fMeasureLoop` produces one row per index. -/
theorem fMeasureLoop_length :
    ∀ (groundTruth groundTruthRep : List (List ℚ)) (fBetaConstant : ℚ) (idxs : List Nat)
      (rows : List (List ℚ)),
      fMeasureLoop groundTruth groundTruthRep fBetaConstant idxs = some rows →
      rows.length = idxs.length := by
  intro groundTruth groundTruthRep fBetaConstant idxs
  induction idxs with
  | nil =>
    intro rows h
    simp only [fMeasureLoop, Option.some.injEq] at h
    simp [← h]
  | cons i rest ih =>
    intro rows h
    simp only [fMeasureLoop, Option.bind_eq_some, Option.map_eq_some'] at h
    obtain ⟨gtRow, _, repRow, _, precision, _, recallValue, _, idx, _, fM, _, rows',
      hrows', rfl⟩ := h
    simp [ih rows' hrows']

/-- Helper: a successful `calc_ground_truth` run is a histogram over some
bucket counting, with a non-zero denominator. -/
theorem calc_ground_truth_shape :
    ∀ (clusters : List Cluster) (noOfClusters : Nat) (groundTruthClusters : GroundTruth)
      (tagindex : TagIndex) (rows : List (List ℚ)),
      calc_ground_truth clusters noOfClusters groundTruthClusters tagindex = some rows →
      ∃ count, gtCountLoop groundTruthClusters tagindex clusters (fun _ => 0) = some count ∧
        noOfClusters ≠ 0 ∧ rows = histogramRows count noOfClusters := by
  intro clusters noOfClusters groundTruthClusters tagindex rows h
  simp only [calc_ground_truth, Option.bind_eq_some] at h
  obtain ⟨count, hcount, h⟩ := h
  by_cases hn : noOfClusters = 0
  · simp [hn] at h
  · simp only [if_neg hn, Option.some.injEq] at h
    exact ⟨count, hcount, hn, h.symm⟩

/-- Helper: a successful `calc_gt_represented` run is a histogram over some
bucket counting, with a non-zero category total. -/
theorem calc_gt_represented_shape :
    ∀ (clusters : List Cluster) (noOfClusters : Nat) (groundTruthClusters : GroundTruth)
      (tagindex : TagIndex) (rows : List (List ℚ)),
      calc_gt_represented clusters noOfClusters groundTruthClusters tagindex = some rows →
      ∃ count, repCountLoop clusters tagindex groundTruthClusters (fun _ => 0) = some count ∧
        groundTruthClusters.length ≠ 0 ∧
        rows = histogramRows count groundTruthClusters.length := by
  intro clusters noOfClusters groundTruthClusters tagindex rows h
  simp only [calc_gt_represented, Option.bind_eq_some] at h
  obtain ⟨count, hcount, h⟩ := h
  by_cases hn : groundTruthClusters.length = 0
  · simp [hn] at h
  · simp only [if_neg hn, Option.some.injEq] at h
    exact ⟨count, hcount, hn, h.symm⟩

/-- C10: the result arity differs between exit paths: the two short-circuit
exits return 5-element zero tuples in the last three components, while the
normal path returns one fraction per histogram row — 6 elements each. -/
theorem result_tuple_arity_by_path :
    ∀ (dropSingletonGT : Bool) (tagIndex : TagIndex) (groundTruthClustersIn : GroundTruth)
      (fBetaConstant timeToCluster : ℚ) (baseClusters : List (List Source))
      (clusters : List Cluster) (result : EvalResult),
      calcPrecisionRecallFMeasure dropSingletonGT tagIndex groundTruthClustersIn
          fBetaConstant timeToCluster baseClusters clusters = some result →
      ((baseClusters.length = 0 ∨ clusters.length = 0) →
        result.groundTruthTuple.length = 5 ∧ result.groundTruthRepTuple.length = 5 ∧
          result.fMeasureTuple.length = 5) ∧
      (baseClusters.length ≠ 0 → clusters.length ≠ 0 →
        result.groundTruthTuple.length = 6 ∧ result.groundTruthRepTuple.length = 6 ∧
          result.fMeasureTuple.length = 6) := by
  intro dropSingletonGT tagIndex groundTruthClustersIn fBetaConstant timeToCluster
    baseClusters clusters result h
  by_cases hb : baseClusters.length = 0
  · simp only [calcPrecisionRecallFMeasure, if_pos hb, Option.some.injEq] at h
    subst h
    refine ⟨fun _ => ⟨rfl, rfl, rfl⟩, fun hb' _ => absurd hb hb'⟩
  · by_cases hc : clusters.length = 0
    · simp only [calcPrecisionRecallFMeasure, if_neg hb, if_pos hc, Option.some.injEq] at h
      subst h
      refine ⟨fun _ => ⟨rfl, rfl, rfl⟩, fun _ hc' => absurd hc hc'⟩
    · simp only [calcPrecisionRecallFMeasure, if_neg hb, if_neg hc, Option.bind_eq_some,
        Option.map_eq_some'] at h
      obtain ⟨tagAcc, htagAcc, covRows, hcov, repRows, hrep, fRows, hf, precision, hprec,
        recallValue, hrec, fMeasure, hfm, gtT, hgtT, repT, hrepT, fT, hfT, rfl⟩ := h
      obtain ⟨countCov, _, _, hcovEq⟩ := calc_ground_truth_shape _ _ _ _ _ hcov
      obtain ⟨countRep, _, _, hrepEq⟩ := calc_gt_represented_shape _ _ _ _ _ hrep
      have hcovLen : covRows.length = 6 := by rw [hcovEq]; rfl
      have hrepLen : repRows.length = 6 := by rw [hrepEq]; rfl
      have hfLen : fRows.length = 6 := by
        have := fMeasureLoop_length _ _ _ _ _ hf
        simpa [calc_f_measure, hcovLen] using this
      refine ⟨fun hor => ?_, fun _ _ => ?_⟩
      · rcases hor with h0 | h0
        · exact absurd h0 hb
        · exact absurd h0 hc
      · refine ⟨?_, ?_, ?_⟩
        · rw [getOverlapResultTuple_length _ _ _ hgtT, hcovLen]
        · rw [getOverlapResultTuple_length _ _ _ hrepT, hrepLen]
        · rw [getOverlapResultTuple_length _ _ _ hfT, hfLen]

/-- C10 witness: instantiation of the arity theorem at the empty-input
short-circuit (both implications hold, the first one applying). -/
theorem result_tuple_arity_by_path_witness :
    ((([] : List (List Source)).length = 0 ∨ ([] : List Cluster).length = 0) →
      (zeroResultTuple 0 0).groundTruthTuple.length = 5 ∧
        (zeroResultTuple 0 0).groundTruthRepTuple.length = 5 ∧
        (zeroResultTuple 0 0).fMeasureTuple.length = 5) ∧
    (([] : List (List Source)).length ≠ 0 → ([] : List Cluster).length ≠ 0 →
      (zeroResultTuple 0 0).groundTruthTuple.length = 6 ∧
        (zeroResultTuple 0 0).groundTruthRepTuple.length = 6 ∧
        (zeroResultTuple 0 0).fMeasureTuple.length = 6) :=
  result_tuple_arity_by_path false scenarioTagIndex scenarioGroundTruth 1 0 [] []
    (zeroResultTuple 0 0) rfl

/-- C5 (amended): on every evaluation that reaches the normal return, the
third and fourth components are the per-rank fraction columns (index 2) of
the ground-truth coverage and representation histograms and the fifth the
value column (index 1) of the F-measure-by-rank rows — six entries each,
one per histogram row, not two/two/one. -/
theorem result_tuple_columns_amended :
    ∀ (dropSingletonGT : Bool) (tagIndex : TagIndex) (groundTruthClustersIn : GroundTruth)
      (fBetaConstant timeToCluster : ℚ) (baseClusters : List (List Source))
      (clusters : List Cluster) (result : EvalResult),
      calcPrecisionRecallFMeasure dropSingletonGT tagIndex groundTruthClustersIn
          fBetaConstant timeToCluster baseClusters clusters = some result →
      baseClusters.length ≠ 0 → clusters.length ≠ 0 →
      ∃ coverageRows representationRows fMeasureRows,
        calc_ground_truth clusters clusters.length
            (if dropSingletonGT then dropSingletonGroundTruthClusters groundTruthClustersIn
              else groundTruthClustersIn) tagIndex = some coverageRows ∧
        calc_gt_represented clusters clusters.length
            (if dropSingletonGT then dropSingletonGroundTruthClusters groundTruthClustersIn
              else groundTruthClustersIn) tagIndex = some representationRows ∧
        calc_f_measure coverageRows representationRows fBetaConstant = some fMeasureRows ∧
        getOverlapResultTuple coverageRows 2 = some result.groundTruthTuple ∧
        getOverlapResultTuple representationRows 2 = some result.groundTruthRepTuple ∧
        getOverlapResultTuple fMeasureRows 1 = some result.fMeasureTuple ∧
        result.groundTruthTuple.length = 6 ∧ result.groundTruthRepTuple.length = 6 ∧
        result.fMeasureTuple.length = 6 := by
  intro dropSingletonGT tagIndex groundTruthClustersIn fBetaConstant timeToCluster
    baseClusters clusters result h hb hc
  simp only [calcPrecisionRecallFMeasure, if_neg hb, if_neg hc, Option.bind_eq_some,
    Option.map_eq_some'] at h
  obtain ⟨tagAcc, htagAcc, covRows, hcov, repRows, hrep, fRows, hf, precision, hprec,
    recallValue, hrec, fMeasure, hfm, gtT, hgtT, repT, hrepT, fT, hfT, rfl⟩ := h
  obtain ⟨countCov, _, _, hcovEq⟩ := calc_ground_truth_shape _ _ _ _ _ hcov
  obtain ⟨countRep, _, _, hrepEq⟩ := calc_gt_represented_shape _ _ _ _ _ hrep
  have hcovLen : covRows.length = 6 := by rw [hcovEq]; rfl
  have hrepLen : repRows.length = 6 := by rw [hrepEq]; rfl
  have hfLen : fRows.length = 6 := by
    have := fMeasureLoop_length _ _ _ _ _ hf
    simpa [calc_f_measure, hcovLen] using this
  exact ⟨covRows, repRows, fRows, hcov, hrep, hf, hgtT, hrepT, hfT,
    by rw [getOverlapResultTuple_length _ _ _ hgtT, hcovLen],
    by rw [getOverlapResultTuple_length _ _ _ hrepT, hrepLen],
    by rw [getOverlapResultTuple_length _ _ _ hfT, hfLen]⟩

/-- C5 witness: the column theorem instantiated on the spec's concrete
scenario, whose full evaluation is checked by computation. -/
theorem result_tuple_columns_amended_witness :
    ∃ coverageRows representationRows fMeasureRows,
      calc_ground_truth scenarioClusters scenarioClusters.length
          (if false then dropSingletonGroundTruthClusters scenarioGroundTruth
            else scenarioGroundTruth) scenarioTagIndex = some coverageRows ∧
      calc_gt_represented scenarioClusters scenarioClusters.length
          (if false then dropSingletonGroundTruthClusters scenarioGroundTruth
            else scenarioGroundTruth) scenarioTagIndex = some representationRows ∧
      calc_f_measure coverageRows representationRows 1 = some fMeasureRows ∧
      getOverlapResultTuple coverageRows 2 =
        some (EvalResult.groundTruthTuple
          ⟨(0, 1, 1), (2 / 3, 2 / 3, 2 / 3), [0, 0, 0, 1, 0, 0],
            [0, 0, 0, 1 / 2, 0, 1 / 2], [0, 0, 0, 2 / 3, 0, 0]⟩) ∧
      getOverlapResultTuple representationRows 2 =
        some (EvalResult.groundTruthRepTuple
          ⟨(0, 1, 1), (2 / 3, 2 / 3, 2 / 3), [0, 0, 0, 1, 0, 0],
            [0, 0, 0, 1 / 2, 0, 1 / 2], [0, 0, 0, 2 / 3, 0, 0]⟩) ∧
      getOverlapResultTuple fMeasureRows 1 =
        some (EvalResult.fMeasureTuple
          ⟨(0, 1, 1), (2 / 3, 2 / 3, 2 / 3), [0, 0, 0, 1, 0, 0],
            [0, 0, 0, 1 / 2, 0, 1 / 2], [0, 0, 0, 2 / 3, 0, 0]⟩) ∧
      (EvalResult.groundTruthTuple
        ⟨(0, 1, 1), (2 / 3, 2 / 3, 2 / 3), [0, 0, 0, 1, 0, 0],
          [0, 0, 0, 1 / 2, 0, 1 / 2], [0, 0, 0, 2 / 3, 0, 0]⟩).length = 6 ∧
      (EvalResult.groundTruthRepTuple
        ⟨(0, 1, 1), (2 / 3, 2 / 3, 2 / 3), [0, 0, 0, 1, 0, 0],
          [0, 0, 0, 1 / 2, 0, 1 / 2], [0, 0, 0, 2 / 3, 0, 0]⟩).length = 6 ∧
      (EvalResult.fMeasureTuple
        ⟨(0, 1, 1), (2 / 3, 2 / 3, 2 / 3), [0, 0, 0, 1, 0, 0],
          [0, 0, 0, 1 / 2, 0, 1 / 2], [0, 0, 0, 2 / 3, 0, 0]⟩).length = 6 :=
  result_tuple_columns_amended false scenarioTagIndex scenarioGroundTruth 1 0 [[1, 2]]
    scenarioClusters
    ⟨(0, 1, 1), (2 / 3, 2 / 3, 2 / 3), [0, 0, 0, 1, 0, 0],
      [0, 0, 0, 1 / 2, 0, 1 / 2], [0, 0, 0, 2 / 3, 0, 0]⟩
    (by norm_num +decide [calcPrecisionRecallFMeasure, calc_tag_accuracy, tagAccuracyLoop,
      count_match, count_matchLoop, pSum, calc_ground_truth, gtCountLoop, bestMatchGTLoop,
      calc_gt_represented, repCountLoop, bestMatchRepLoop, calc_f_measure, fMeasureLoop,
      calc_overall_precision, overallPrecisionLoop, maxPrecisionLoop,
      calc_overall_recall, overallRecallLoop, maxRecallLoop,
      calc_overall_fmeasure, overallFMeasureLoop, maxFMeasureLoop,
      getOverlapResultTuple, histogramRows, pAbove, bump, contains, tagListOf, lookupTag,
      common, distinct, intersectionLength, List.range', List.range, List.range.loop,
      scenarioTagIndex, scenarioGroundTruth, scenarioClusters])
    (by decide) (by decide)

/-- Helper: a successful bucket increment raises the six-bucket total by
one. -/
theorem bump_total :
    ∀ (count : Nat → Nat) (bestMatch : Nat) (count' : Nat → Nat),
      bump count bestMatch = some count' → totalCount count' = totalCount count + 1 := by
  intro count bestMatch count' h
  simp only [bump] at h
  by_cases hb : bestMatch ≤ 5
  · simp only [if_pos hb, Option.some.injEq] at h
    subst h
    interval_cases bestMatch <;> simp [totalCount] <;> omega
  · simp [if_neg hb] at h

/-- Helper: the `calc_ground_truth` counting loop adds exactly one bucket
unit per cluster. -/
theorem gtCountLoop_total :
    ∀ (groundTruthClusters : GroundTruth) (tagindex : TagIndex) (clusters : List Cluster)
      (count count' : Nat → Nat),
      gtCountLoop groundTruthClusters tagindex clusters count = some count' →
      totalCount count' = totalCount count + clusters.length := by
  intro groundTruthClusters tagindex clusters
  induction clusters with
  | nil =>
    intro count count' h
    simp only [gtCountLoop, Option.some.injEq] at h
    simp [← h]
  | cons cluster rest ih =>
    intro count count' h
    simp only [gtCountLoop, Option.bind_eq_some] at h
    obtain ⟨bestMatch, _, count1, hbump, hrest⟩ := h
    have h1 := bump_total _ _ _ hbump
    have h2 := ih _ _ hrest
    simp only [List.length_cons]
    omega

/-- Helper: the `calc_gt_represented` counting loop adds exactly one bucket
unit per ground-truth category. -/
theorem repCountLoop_total :
    ∀ (clusters : List Cluster) (tagindex : TagIndex) (groundTruthClusters : GroundTruth)
      (count count' : Nat → Nat),
      repCountLoop clusters tagindex groundTruthClusters count = some count' →
      totalCount count' = totalCount count + groundTruthClusters.length := by
  intro clusters tagindex groundTruthClusters
  induction groundTruthClusters with
  | nil =>
    intro count count' h
    simp only [repCountLoop, Option.some.injEq] at h
    simp [← h]
  | cons entry rest ih =>
    intro count count' h
    simp only [repCountLoop, Option.bind_eq_some] at h
    obtain ⟨bestMatch, _, count1, hbump, hrest⟩ := h
    have h1 := bump_total _ _ _ hbump
    have h2 := ih _ _ hrest
    simp only [List.length_cons]
    omega

/-- Helper: the count column of a histogram sums to the six-bucket total. -/
theorem countColumn_histogramRows :
    ∀ (count : Nat → Nat) (denominator : Nat),
      countColumn (histogramRows count denominator) = (totalCount count : ℚ) := by
  intro count denominator
  simp [countColumn, histogramRows, totalCount, List.getD]
  ring

/-- Helper: `count_match` counts the clusters whose own tag depth equals
`5 - discrepancy`. -/
theorem count_matchLoop_eq :
    ∀ (tagindex : TagIndex) (discrepancy : Nat) (clusters : List Cluster) (acc m : Nat),
      count_matchLoop tagindex discrepancy clusters acc = some m →
      m = acc + clusters.countP
        (fun cl => decide (clusterTagDepth tagindex cl = some (5 - discrepancy))) := by
  intro tagindex discrepancy clusters
  induction clusters with
  | nil =>
    intro acc m h
    simp only [count_matchLoop, Option.some.injEq] at h
    simp [← h]
  | cons cluster rest ih =>
    intro acc m h
    simp only [count_matchLoop, Option.bind_eq_some] at h
    obtain ⟨tagList, htl, h⟩ := h
    have hdepth : clusterTagDepth tagindex cluster = some ((common tagList).length) := by
      simp [clusterTagDepth, htl]
    rw [List.countP_cons]
    by_cases hc : (common tagList).length = 5 - discrepancy
    · rw [if_pos hc] at h
      have hrec := ih _ _ h
      rw [if_pos (show decide (clusterTagDepth tagindex cluster = some (5 - discrepancy)) =
        true by simp [hdepth, hc])]
      omega
    · rw [if_neg hc] at h
      have hrec := ih _ _ h
      rw [if_neg (show ¬(decide (clusterTagDepth tagindex cluster = some (5 - discrepancy)) =
        true) by simp [hdepth, hc])]
      omega

/-- Helper: the count column of the tag-accuracy rows sums the per-row
`count_match` values. -/
theorem tagAccuracyLoop_countColumn :
    ∀ (clusters : List Cluster) (tagindex : TagIndex) (noOfClusters : Nat) (idxs : List Nat)
      (rows : List (List ℚ)),
      tagAccuracyLoop clusters tagindex noOfClusters idxs = some rows →
      countColumn rows = (((idxs.map (fun i => clusters.countP
        (fun cl => decide (clusterTagDepth tagindex cl = some (5 - i))))).sum : Nat) : ℚ) := by
  intro clusters tagindex noOfClusters idxs
  induction idxs with
  | nil =>
    intro rows h
    simp only [tagAccuracyLoop, Option.some.injEq] at h
    simp [← h, countColumn]
  | cons i rest ih =>
    intro rows h
    simp only [tagAccuracyLoop, Option.bind_eq_some, Option.map_eq_some'] at h
    obtain ⟨countMatch, hcm, p, hp, rows', hrows', rfl⟩ := h
    have hval := count_matchLoop_eq _ _ _ _ _ hcm
    have hrec := ih rows' hrows'
    simp only [countColumn, List.map_cons, List.sum_cons, List.getD, List.get?_cons_succ,
      List.get?_cons_zero, Option.getD_some] at hrec ⊢
    rw [hrec, hval]
    push_cast
    ring

/-- Helper: partitioning the clusters by exact depth `5, 4, …, 0` counts
exactly the clusters whose depth is at most 5 (a depth above 5 falls in no
bucket). -/
theorem countP_depth_partition :
    ∀ (tagindex : TagIndex) (clusters : List Cluster),
      (([0, 1, 2, 3, 4, 5] : List Nat).map (fun i => clusters.countP
        (fun cl => decide (clusterTagDepth tagindex cl = some (5 - i))))).sum =
      clusters.countP (fun cl => decide ((clusterTagDepth tagindex cl).getD 6 ≤ 5)) := by
  intro tagindex clusters
  induction clusters with
  | nil => simp
  | cons cluster rest ih =>
    simp only [List.countP_cons, List.map_cons, List.sum_cons, List.map_nil,
      List.sum_nil] at ih ⊢
    cases hd : clusterTagDepth tagindex cluster with
    | none =>
      simp only [hd, Option.getD_none, decide_eq_true_eq]
      split_ifs <;> first
        | omega
        | simp_all
    | some d =>
      simp only [hd, Option.getD_some, Option.some.injEq, decide_eq_true_eq]
      split_ifs <;> omega

/-- C7 (amended): on every successful run, the count columns of the
ground-truth coverage and representation histograms sum to the driving
partition sizes (cluster count and category count respectively); for the
tag-accuracy histogram the column sums to the number of clusters whose tag
match depth is at most 5 — equal to the cluster count only when no cluster
shares more than 5 tag tokens. -/
theorem histogram_counts_sum_amended :
    ∀ (clusters : List Cluster) (noOfClusters : Nat) (groundTruthClusters : GroundTruth)
      (tagindex : TagIndex),
      (∀ rows, calc_ground_truth clusters noOfClusters groundTruthClusters tagindex =
          some rows → countColumn rows = (clusters.length : ℚ)) ∧
      (∀ rows, calc_gt_represented clusters noOfClusters groundTruthClusters tagindex =
          some rows → countColumn rows = (groundTruthClusters.length : ℚ)) ∧
      (∀ rows, calc_tag_accuracy clusters noOfClusters groundTruthClusters tagindex =
          some rows → countColumn rows = ((clusters.countP
            (fun cl => decide ((clusterTagDepth tagindex cl).getD 6 ≤ 5)) : Nat) : ℚ)) := by
  intro clusters noOfClusters groundTruthClusters tagindex
  refine ⟨?_, ?_, ?_⟩
  · intro rows h
    obtain ⟨count, hcount, _, rfl⟩ := calc_ground_truth_shape _ _ _ _ _ h
    rw [countColumn_histogramRows]
    have := gtCountLoop_total _ _ _ _ _ hcount
    have h0 : totalCount (fun _ => 0) = 0 := rfl
    norm_num [this, h0]
  · intro rows h
    obtain ⟨count, hcount, _, rfl⟩ := calc_gt_represented_shape _ _ _ _ _ h
    rw [countColumn_histogramRows]
    have := repCountLoop_total _ _ _ _ _ hcount
    have h0 : totalCount (fun _ => 0) = 0 := rfl
    norm_num [this, h0]
  · intro rows h
    simp only [calc_tag_accuracy] at h
    by_cases hn : noOfClusters = 0
    · simp [hn] at h
    · rw [if_neg hn] at h
      rw [tagAccuracyLoop_countColumn _ _ _ _ _ h, countP_depth_partition]

/-- C7 witness: the sum theorem instantiated on the spec's concrete
scenario (coverage, representation, tag accuracy). -/
theorem histogram_counts_sum_amended_witness :
    countColumn [[0, 0, 0, 0], [1, 0, 0, 0], [2, 0, 0, 0], [3, 1, 1, 1], [4, 0, 0, 1],
        [5, 0, 0, 1]] = (scenarioClusters.length : ℚ) ∧
      countColumn [[0, 0, 0, 0], [1, 0, 0, 0], [2, 0, 0, 0], [3, 1, 1 / 2, 1 / 2],
        [4, 0, 0, 1 / 2], [5, 1, 1 / 2, 1]] = (scenarioGroundTruth.length : ℚ) ∧
      countColumn [[0, 0, 0, 0], [1, 0, 0, 0], [2, 0, 0, 0], [3, 1, 1, 1], [4, 0, 0, 1],
        [5, 0, 0, 1]] = ((scenarioClusters.countP
          (fun cl => decide ((clusterTagDepth scenarioTagIndex cl).getD 6 ≤ 5)) : Nat) : ℚ) :=
  ⟨(histogram_counts_sum_amended scenarioClusters 1 scenarioGroundTruth scenarioTagIndex).1 _
      (by norm_num +decide [calc_ground_truth, gtCountLoop, bestMatchGTLoop, tagListOf,
        lookupTag, common, contains, bump, histogramRows, pAbove, List.range', distinct,
        scenarioClusters, scenarioGroundTruth, scenarioTagIndex]),
    (histogram_counts_sum_amended scenarioClusters 1 scenarioGroundTruth scenarioTagIndex).2.1 _
      (by norm_num +decide [calc_gt_represented, repCountLoop, bestMatchRepLoop, tagListOf,
        lookupTag, common, contains, bump, histogramRows, pAbove, List.range', distinct,
        scenarioClusters, scenarioGroundTruth, scenarioTagIndex]),
    (histogram_counts_sum_amended scenarioClusters 1 scenarioGroundTruth scenarioTagIndex).2.2 _
      (by norm_num +decide [calc_tag_accuracy, tagAccuracyLoop, count_match, count_matchLoop,
        pSum, tagListOf, lookupTag, common, distinct, scenarioClusters, scenarioGroundTruth,
        scenarioTagIndex])⟩

/-- Helper: membership in the distinct-elements list. -/
theorem mem_distinct :
    ∀ {α : Type} [inst : DecidableEq α] (l : List α) (a : α), a ∈ distinct l ↔ a ∈ l := by
  intro α inst l a
  induction l with
  | nil => simp [distinct]
  | cons x rest ih =>
    simp only [distinct]
    by_cases hx : x ∈ rest
    · rw [if_pos hx, ih]
      simp only [List.mem_cons]
      constructor
      · exact fun h => Or.inr h
      · rintro (rfl | h)
        · exact hx
        · exact h
    · rw [if_neg hx]
      simp [ih]

/-- Helper: the distinct-elements list has no duplicates. -/
theorem distinct_nodup :
    ∀ {α : Type} [inst : DecidableEq α] (l : List α), (distinct l).Nodup := by
  intro α inst l
  induction l with
  | nil => simp [distinct]
  | cons x rest ih =>
    simp only [distinct]
    by_cases hx : x ∈ rest
    · rw [if_pos hx]; exact ih
    · rw [if_neg hx]
      exact List.Nodup.cons (by simp [mem_distinct, hx]) ih

/-- Helper: taking distinct elements never lengthens a list. -/
theorem distinct_length_le :
    ∀ {α : Type} [inst : DecidableEq α] (l : List α), (distinct l).length ≤ l.length := by
  intro α inst l
  induction l with
  | nil => simp [distinct]
  | cons x rest ih =>
    simp only [distinct]
    by_cases hx : x ∈ rest
    · rw [if_pos hx]
      simp only [List.length_cons]
      omega
    · rw [if_neg hx]
      simp only [List.length_cons]
      omega

/-- Helper: `|set(G) ∩ set(C)|` is at most `len(G)`. -/
theorem intersectionLength_le_left :
    ∀ (sources clusterSources : List Source),
      intersectionLength sources clusterSources ≤ sources.length := by
  intro sources clusterSources
  calc ((distinct sources).filter (fun s => clusterSources.contains s)).length
      ≤ (distinct sources).length := List.length_filter_le _ _
    _ ≤ sources.length := distinct_length_le sources

/-- Helper: `|set(G) ∩ set(C)|` is at most `len(C)`. -/
theorem intersectionLength_le_right :
    ∀ (sources clusterSources : List Source),
      intersectionLength sources clusterSources ≤ clusterSources.length := by
  intro sources clusterSources
  have hnodup : ((distinct sources).filter (fun s => clusterSources.contains s)).Nodup :=
    List.Nodup.filter _ (distinct_nodup sources)
  have hsub : ((distinct sources).filter (fun s => clusterSources.contains s)).toFinset ⊆
      clusterSources.toFinset := by
    intro x hx
    simp only [List.mem_toFinset, List.mem_filter] at hx ⊢
    have := hx.2
    simpa [List.elem_eq_mem, decide_eq_true_eq] using this
  calc ((distinct sources).filter (fun s => clusterSources.contains s)).length
      = ((distinct sources).filter (fun s => clusterSources.contains s)).toFinset.card :=
        (List.toFinset_card_of_nodup hnodup).symm
    _ ≤ clusterSources.toFinset.card := Finset.card_le_card hsub
    _ ≤ clusterSources.length := List.toFinset_card_le _

/-- Helper: the per-category maximum precision stays within `[0, 1]`. -/
theorem maxPrecisionLoop_bounds :
    ∀ (sources : List Source) (clusters : List Cluster) (m v : ℚ),
      0 ≤ m → m ≤ 1 → maxPrecisionLoop sources clusters m = some v → 0 ≤ v ∧ v ≤ 1 := by
  intro sources clusters
  induction clusters with
  | nil =>
    intro m v h0 h1 h
    simp only [maxPrecisionLoop, Option.some.injEq] at h
    subst h
    exact ⟨h0, h1⟩
  | cons cluster rest ih =>
    intro m v h0 h1 h
    simp only [maxPrecisionLoop] at h
    by_cases hz : cluster.sources.length = 0
    · simp [hz] at h
    · rw [if_neg hz] at h
      set p : ℚ := (intersectionLength sources cluster.sources : ℚ) /
        (cluster.sources.length : ℚ) with hp
      have hlen : (0 : ℚ) < (cluster.sources.length : ℚ) := by
        exact_mod_cast Nat.pos_of_ne_zero hz
      have hp0 : 0 ≤ p := div_nonneg (by positivity) (le_of_lt hlen)
      have hp1 : p ≤ 1 := by
        rw [hp, div_le_one hlen]
        exact_mod_cast intersectionLength_le_right sources cluster.sources
      by_cases hgt : p > m
      · rw [if_pos hgt] at h
        exact ih p v hp0 hp1 h
      · rw [if_neg hgt] at h
        exact ih m v h0 h1 h

/-- Helper: the per-category maximum recall stays within `[0, 1]`. -/
theorem maxRecallLoop_bounds :
    ∀ (sources : List Source) (clusters : List Cluster) (m v : ℚ),
      0 ≤ m → m ≤ 1 → maxRecallLoop sources clusters m = some v → 0 ≤ v ∧ v ≤ 1 := by
  intro sources clusters
  induction clusters with
  | nil =>
    intro m v h0 h1 h
    simp only [maxRecallLoop, Option.some.injEq] at h
    subst h
    exact ⟨h0, h1⟩
  | cons cluster rest ih =>
    intro m v h0 h1 h
    simp only [maxRecallLoop] at h
    by_cases hz : sources.length = 0
    · simp [hz] at h
    · rw [if_neg hz] at h
      set r : ℚ := (intersectionLength sources cluster.sources : ℚ) /
        (sources.length : ℚ) with hr
      have hlen : (0 : ℚ) < (sources.length : ℚ) := by
        exact_mod_cast Nat.pos_of_ne_zero hz
      have hr0 : 0 ≤ r := div_nonneg (by positivity) (le_of_lt hlen)
      have hr1 : r ≤ 1 := by
        rw [hr, div_le_one hlen]
        exact_mod_cast intersectionLength_le_left sources cluster.sources
      by_cases hgt : r > m
      · rw [if_pos hgt] at h
        exact ih r v hr0 hr1 h
      · rw [if_neg hgt] at h
        exact ih m v h0 h1 h

/-- Helper: the overall-precision accumulator grows monotonically and by at
most the weight mass `Σ|Gi| / noOfSources`. -/
theorem overallPrecisionLoop_bounds :
    ∀ (clusters : List Cluster) (noOfSources : Nat) (groundTruthClusters : GroundTruth)
      (acc v : ℚ),
      overallPrecisionLoop clusters noOfSources groundTruthClusters acc = some v →
      acc ≤ v ∧ v ≤ acc + (sumLens groundTruthClusters : ℚ) / (noOfSources : ℚ) := by
  intro clusters noOfSources groundTruthClusters
  induction groundTruthClusters with
  | nil =>
    intro acc v h
    simp only [overallPrecisionLoop, Option.some.injEq] at h
    subst h
    refine ⟨le_refl _, ?_⟩
    simp [sumLens]
  | cons entry rest ih =>
    intro acc v h
    simp only [overallPrecisionLoop] at h
    by_cases hz : noOfSources = 0
    · simp [hz] at h
    · rw [if_neg hz] at h
      simp only [Option.bind_eq_some] at h
      obtain ⟨maxP, hmaxP, h⟩ := h
      have hN : (0 : ℚ) < (noOfSources : ℚ) := by
        exact_mod_cast Nat.pos_of_ne_zero hz
      have hm := maxPrecisionLoop_bounds entry.2 clusters 0 maxP (le_refl 0) (by norm_num) hmaxP
      have hfac : (0 : ℚ) ≤ (entry.2.length : ℚ) / (noOfSources : ℚ) :=
        div_nonneg (by positivity) (le_of_lt hN)
      have hstep : (0 : ℚ) ≤ (entry.2.length : ℚ) / (noOfSources : ℚ) * maxP :=
        mul_nonneg hfac hm.1
      have hstep1 : (entry.2.length : ℚ) / (noOfSources : ℚ) * maxP ≤
          (entry.2.length : ℚ) / (noOfSources : ℚ) :=
        mul_le_of_le_one_right hfac hm.2
      obtain ⟨hlow, hhigh⟩ := ih _ _ h
      constructor
      · linarith
      · have hsplit : (sumLens (entry :: rest) : ℚ) / (noOfSources : ℚ) =
            (entry.2.length : ℚ) / (noOfSources : ℚ) + (sumLens rest : ℚ) / (noOfSources : ℚ) := by
          rw [div_add_div_same]
          congr 1
          simp [sumLens]
        rw [hsplit]
        linarith

/-- Helper: the overall-recall accumulator grows monotonically and by at
most the weight mass `Σ|Gi| / noOfSources`. -/
theorem overallRecallLoop_bounds :
    ∀ (clusters : List Cluster) (noOfSources : Nat) (groundTruthClusters : GroundTruth)
      (acc v : ℚ),
      overallRecallLoop clusters noOfSources groundTruthClusters acc = some v →
      acc ≤ v ∧ v ≤ acc + (sumLens groundTruthClusters : ℚ) / (noOfSources : ℚ) := by
  intro clusters noOfSources groundTruthClusters
  induction groundTruthClusters with
  | nil =>
    intro acc v h
    simp only [overallRecallLoop, Option.some.injEq] at h
    subst h
    refine ⟨le_refl _, ?_⟩
    simp [sumLens]
  | cons entry rest ih =>
    intro acc v h
    simp only [overallRecallLoop] at h
    by_cases hz : noOfSources = 0
    · simp [hz] at h
    · rw [if_neg hz] at h
      simp only [Option.bind_eq_some] at h
      obtain ⟨maxR, hmaxR, h⟩ := h
      have hN : (0 : ℚ) < (noOfSources : ℚ) := by
        exact_mod_cast Nat.pos_of_ne_zero hz
      have hm := maxRecallLoop_bounds entry.2 clusters 0 maxR (le_refl 0) (by norm_num) hmaxR
      have hfac : (0 : ℚ) ≤ (entry.2.length : ℚ) / (noOfSources : ℚ) :=
        div_nonneg (by positivity) (le_of_lt hN)
      have hstep : (0 : ℚ) ≤ (entry.2.length : ℚ) / (noOfSources : ℚ) * maxR :=
        mul_nonneg hfac hm.1
      have hstep1 : (entry.2.length : ℚ) / (noOfSources : ℚ) * maxR ≤
          (entry.2.length : ℚ) / (noOfSources : ℚ) :=
        mul_le_of_le_one_right hfac hm.2
      obtain ⟨hlow, hhigh⟩ := ih _ _ h
      constructor
      · linarith
      · have hsplit : (sumLens (entry :: rest) : ℚ) / (noOfSources : ℚ) =
            (entry.2.length : ℚ) / (noOfSources : ℚ) + (sumLens rest : ℚ) / (noOfSources : ℚ) := by
          rw [div_add_div_same]
          congr 1
          simp [sumLens]
        rw [hsplit]
        linarith

/-- C3 (amended): overall precision and overall recall lie in `[0, 1]` on
every successful run, provided the total category membership `Σi |Gi|` does
not exceed `noOfSources` — in particular whenever the categories are
disjoint subsets of the tag-indexed collection.  Without that proviso the
weights can sum above 1 and the counterexample applies. -/
theorem overall_precision_recall_bounds_amended :
    ∀ (groundTruthClusters : GroundTruth) (clusters : List Cluster) (noOfSources : Nat),
      sumLens groundTruthClusters ≤ noOfSources →
      (∀ v, calc_overall_precision groundTruthClusters clusters noOfSources = some v →
        0 ≤ v ∧ v ≤ 1) ∧
      (∀ v, calc_overall_recall groundTruthClusters clusters noOfSources = some v →
        0 ≤ v ∧ v ≤ 1) := by
  intro groundTruthClusters clusters noOfSources hsum
  have hdiv : (sumLens groundTruthClusters : ℚ) / (noOfSources : ℚ) ≤ 1 := by
    by_cases hz : noOfSources = 0
    · have : sumLens groundTruthClusters = 0 := by omega
      simp [this]
    · have hN : (0 : ℚ) < (noOfSources : ℚ) := by
        exact_mod_cast Nat.pos_of_ne_zero hz
      rw [div_le_one hN]
      exact_mod_cast hsum
  constructor
  · intro v h
    obtain ⟨hlow, hhigh⟩ := overallPrecisionLoop_bounds _ _ _ _ _ h
    constructor
    · linarith
    · linarith
  · intro v h
    obtain ⟨hlow, hhigh⟩ := overallRecallLoop_bounds _ _ _ _ _ h
    constructor
    · linarith
    · linarith

/-- C3 witness: the bounds theorem instantiated on the spec's concrete
scenario (`Σ|Gi| = 3 = noOfSources`, overall precision `2/3`). -/
theorem overall_precision_recall_bounds_amended_witness :
    (0 : ℚ) ≤ 2 / 3 ∧ (2 / 3 : ℚ) ≤ 1 :=
  (overall_precision_recall_bounds_amended scenarioGroundTruth scenarioClusters 3
    (by decide)).1 (2 / 3)
    (by norm_num +decide [calc_overall_precision, overallPrecisionLoop, maxPrecisionLoop,
      intersectionLength, distinct, scenarioGroundTruth, scenarioClusters])

/-- Helper: the category-driven best-match loop returns the maximum
tag-overlap depth over the clusters that qualify under
`contains(cluster.sources, category.sources)`, starting from the running
accumulator. -/
theorem bestMatchRepLoop_spec :
    ∀ (tagindex : TagIndex) (entry : List Token × List Source) (clusters : List Cluster)
      (acc b : Nat),
      bestMatchRepLoop tagindex entry clusters acc = some b →
      acc ≤ b ∧
      (∀ cl ∈ clusters, contains cl.sources entry.2 = true →
        ∀ d, clusterDepthWith tagindex cl entry.1 = some d → d ≤ b) ∧
      (b = acc ∨ ∃ cl ∈ clusters, contains cl.sources entry.2 = true ∧
        clusterDepthWith tagindex cl entry.1 = some b) := by
  intro tagindex entry clusters
  induction clusters with
  | nil =>
    intro acc b h
    simp only [bestMatchRepLoop, Option.some.injEq] at h
    subst h
    exact ⟨le_refl _, by simp, Or.inl rfl⟩
  | cons cluster rest ih =>
    intro acc b h
    simp only [bestMatchRepLoop] at h
    by_cases hq : contains cluster.sources entry.2 = true
    · rw [if_pos hq] at h
      simp only [Option.bind_eq_some] at h
      obtain ⟨tagList, htl, h⟩ := h
      have hdepth : clusterDepthWith tagindex cluster entry.1 =
          some ((common (tagList ++ [entry.1])).length) := by
        simp [clusterDepthWith, htl]
      obtain ⟨hle, hall, hex⟩ := ih _ _ h
      have haccle : acc ≤ (if (common (tagList ++ [entry.1])).length > acc then
          (common (tagList ++ [entry.1])).length else acc) := by
        split_ifs with hgt
        · omega
        · exact le_refl _
      have hdle : (common (tagList ++ [entry.1])).length ≤
          (if (common (tagList ++ [entry.1])).length > acc then
            (common (tagList ++ [entry.1])).length else acc) := by
        split_ifs with hgt
        · exact le_refl _
        · omega
      refine ⟨le_trans haccle hle, ?_, ?_⟩
      · intro cl hcl hcont d hd
        rcases List.mem_cons.mp hcl with rfl | hmem
        · rw [hdepth] at hd
          have : d = (common (tagList ++ [entry.1])).length := by
            exact (Option.some.injEq _ _).mp hd.symm
          omega
        · exact hall cl hmem hcont d hd
      · rcases hex with hb | ⟨cl, hmem, hcont, hdep⟩
        · by_cases hgt : (common (tagList ++ [entry.1])).length > acc
          · rw [if_pos hgt] at hb
            exact Or.inr ⟨cluster, List.mem_cons_self _ _, hq, hb ▸ hdepth⟩
          · rw [if_neg hgt] at hb
            exact Or.inl hb
        · exact Or.inr ⟨cl, List.mem_cons_of_mem _ hmem, hcont, hdep⟩
    · rw [if_neg hq] at h
      obtain ⟨hle, hall, hex⟩ := ih _ _ h
      refine ⟨hle, ?_, ?_⟩
      · intro cl hcl hcont d hd
        rcases List.mem_cons.mp hcl with rfl | hmem
        · exact absurd hcont hq
        · exact hall cl hmem hcont d hd
      · rcases hex with hb | ⟨cl, hmem, hcont, hdep⟩
        · exact Or.inl hb
        · exact Or.inr ⟨cl, List.mem_cons_of_mem _ hmem, hcont, hdep⟩

/-- C4 (amended): in `calc_gt_represented`'s scoring, a cluster qualifies
for depth scoring iff the driving category's sources are a subset of the
cluster's sources (`contains(cluster.sources, category.sources)` — the
converse of the claim's direction); among the qualifying clusters the
maximum tag-overlap depth is kept and it is 0 when none qualifies. -/
theorem gt_represented_best_match_amended :
    ∀ (tagindex : TagIndex) (entry : List Token × List Source) (clusters : List Cluster)
      (b : Nat),
      bestMatchRepLoop tagindex entry clusters 0 = some b →
      ((∀ cl ∈ clusters, contains cl.sources entry.2 = false) → b = 0) ∧
      (∀ cl ∈ clusters, contains cl.sources entry.2 = true →
        ∀ d, clusterDepthWith tagindex cl entry.1 = some d → d ≤ b) ∧
      (b = 0 ∨ ∃ cl ∈ clusters, contains cl.sources entry.2 = true ∧
        clusterDepthWith tagindex cl entry.1 = some b) := by
  intro tagindex entry clusters b h
  obtain ⟨_, hall, hex⟩ := bestMatchRepLoop_spec tagindex entry clusters 0 b h
  refine ⟨?_, hall, hex⟩
  intro hnone
  rcases hex with hb | ⟨cl, hmem, hcont, _⟩
  · exact hb
  · rw [hnone cl hmem] at hcont
    exact absurd hcont (by simp)

/-- C4 witness: the best-match theorem instantiated on the counterexample
input, where the single cluster `{1, 2}` qualifies for category `{1}` and
scores depth 1. -/
theorem gt_represented_best_match_amended_witness :
    ((∀ cl ∈ ([⟨[1, 2]⟩] : List Cluster), contains cl.sources [1] = false) → (1 : Nat) = 0) ∧
      (∀ cl ∈ ([⟨[1, 2]⟩] : List Cluster), contains cl.sources [1] = true →
        ∀ d, clusterDepthWith [(1, ["t"]), (2, ["t"])] cl ["t"] = some d → d ≤ 1) ∧
      ((1 : Nat) = 0 ∨ ∃ cl ∈ ([⟨[1, 2]⟩] : List Cluster), contains cl.sources [1] = true ∧
        clusterDepthWith [(1, ["t"]), (2, ["t"])] cl ["t"] = some 1) :=
  gt_represented_best_match_amended [(1, ["t"]), (2, ["t"])] (["t"], [1]) [⟨[1, 2]⟩] 1
    (by decide)

/-- Helper: an empty cluster makes the per-category precision scan raise
(the division by `len(cluster.sources)` is unguarded). -/
theorem maxPrecisionLoop_none_of_empty :
    ∀ (sources : List Source) (clusters : List Cluster) (m : ℚ),
      (∃ cl ∈ clusters, cl.sources = ([] : List Source)) →
      maxPrecisionLoop sources clusters m = none := by
  intro sources clusters
  induction clusters with
  | nil =>
    intro m h
    obtain ⟨cl, hmem, _⟩ := h
    cases hmem
  | cons cluster rest ih =>
    intro m h
    simp only [maxPrecisionLoop]
    by_cases hz : cluster.sources.length = 0
    · rw [if_pos hz]
    · rw [if_neg hz]
      obtain ⟨cl, hmem, hempty⟩ := h
      rcases List.mem_cons.mp hmem with rfl | hmem'
      · exact absurd (by simp [hempty]) hz
      · exact ih _ ⟨cl, hmem', hempty⟩

/-- Helper: an empty cluster makes the per-category F-measure scan raise —
its precision division is just as unguarded as `calc_overall_precision`'s;
only the F-measure denominator is guarded. -/
theorem maxFMeasureLoop_none_of_empty :
    ∀ (sources : List Source) (clusters : List Cluster) (m beta : ℚ),
      (∃ cl ∈ clusters, cl.sources = ([] : List Source)) →
      maxFMeasureLoop sources clusters m beta = none := by
  intro sources clusters
  induction clusters with
  | nil =>
    intro m beta h
    obtain ⟨cl, hmem, _⟩ := h
    cases hmem
  | cons cluster rest ih =>
    intro m beta h
    simp only [maxFMeasureLoop]
    by_cases hz : cluster.sources.length = 0
    · rw [if_pos hz]
    · rw [if_neg hz]
      by_cases hs : sources.length = 0
      · rw [if_pos hs]
      · rw [if_neg hs]
        obtain ⟨cl, hmem, hempty⟩ := h
        rcases List.mem_cons.mp hmem with rfl | hmem'
        · exact absurd (by simp [hempty]) hz
        · exact ih _ _ ⟨cl, hmem', hempty⟩

/-- Helper: the per-category recall scan only divides by the category size,
so it succeeds whenever the category is non-empty. -/
theorem maxRecallLoop_some :
    ∀ (sources : List Source) (clusters : List Cluster) (m : ℚ),
      sources.length ≠ 0 →
      ∃ v, maxRecallLoop sources clusters m = some v := by
  intro sources clusters
  induction clusters with
  | nil =>
    intro m _
    exact ⟨m, rfl⟩
  | cons cluster rest ih =>
    intro m hs
    simp only [maxRecallLoop, if_neg hs]
    exact ih _ hs

/-- Helper: overall recall succeeds whenever the source total is non-zero
and every category is non-empty — clusters, empty or not, are irrelevant. -/
theorem overallRecallLoop_some :
    ∀ (clusters : List Cluster) (noOfSources : Nat) (groundTruthClusters : GroundTruth)
      (acc : ℚ),
      noOfSources ≠ 0 →
      (∀ entry ∈ groundTruthClusters, entry.2 ≠ ([] : List Source)) →
      ∃ v, overallRecallLoop clusters noOfSources groundTruthClusters acc = some v := by
  intro clusters noOfSources groundTruthClusters
  induction groundTruthClusters with
  | nil =>
    intro acc _ _
    exact ⟨acc, rfl⟩
  | cons entry rest ih =>
    intro acc hN hne
    simp only [overallRecallLoop, if_neg hN]
    have hlen : entry.2.length ≠ 0 := by
      intro h0
      exact hne entry (List.mem_cons_self _ _) (List.length_eq_zero.mp h0)
    obtain ⟨m, hm⟩ := maxRecallLoop_some entry.2 clusters 0 hlen
    rw [hm]
    simp only [Option.some_bind]
    exact ih _ hN (fun e he => hne e (List.mem_cons_of_mem _ he))

/-- C8 (amended): with a non-empty ground truth and a cluster with an empty
source set, `calc_overall_precision` and `calc_overall_fmeasure` both fail
with an unguarded division by zero on that cluster (the F-measure guard
covers only a zero `β²·precision + recall` denominator), while
`calc_overall_recall` — whose divisions are all by category sizes — returns
a result normally whenever the source total is non-zero and every category
is non-empty. -/
theorem empty_cluster_division_failure_amended :
    ∀ (groundTruthClusters : GroundTruth) (clusters : List Cluster) (noOfSources : Nat)
      (fBetaConstant : ℚ),
      groundTruthClusters ≠ [] →
      (∃ cl ∈ clusters, cl.sources = ([] : List Source)) →
      calc_overall_precision groundTruthClusters clusters noOfSources = none ∧
      calc_overall_fmeasure groundTruthClusters clusters noOfSources fBetaConstant = none ∧
      (noOfSources ≠ 0 → (∀ entry ∈ groundTruthClusters, entry.2 ≠ ([] : List Source)) →
        ∃ v, calc_overall_recall groundTruthClusters clusters noOfSources = some v) := by
  intro groundTruthClusters clusters noOfSources fBetaConstant hne hempty
  refine ⟨?_, ?_, ?_⟩
  · cases groundTruthClusters with
    | nil => exact absurd rfl hne
    | cons entry rest =>
      simp only [calc_overall_precision, overallPrecisionLoop]
      by_cases hz : noOfSources = 0
      · rw [if_pos hz]
      · rw [if_neg hz, maxPrecisionLoop_none_of_empty entry.2 clusters 0 hempty]
        rfl
  · cases groundTruthClusters with
    | nil => exact absurd rfl hne
    | cons entry rest =>
      simp only [calc_overall_fmeasure, overallFMeasureLoop]
      by_cases hz : noOfSources = 0
      · rw [if_pos hz]
      · rw [if_neg hz, maxFMeasureLoop_none_of_empty entry.2 clusters 0 fBetaConstant hempty]
        rfl
  · intro hN hcats
    exact overallRecallLoop_some clusters noOfSources groundTruthClusters 0 hN hcats

/-- C8 witness: the division-failure theorem instantiated at ground truth
`{t: {1}}`, one empty cluster, `noOfSources = 1`, `β = 1`. -/
theorem empty_cluster_division_failure_amended_witness :
    calc_overall_precision [(["t"], [1])] [⟨[]⟩] 1 = none ∧
      calc_overall_fmeasure [(["t"], [1])] [⟨[]⟩] 1 1 = none ∧
      ((1 : Nat) ≠ 0 → (∀ entry ∈ ([(["t"], [1])] : GroundTruth),
          entry.2 ≠ ([] : List Source)) →
        ∃ v, calc_overall_recall [(["t"], [1])] [⟨[]⟩] 1 = some v) :=
  empty_cluster_division_failure_amended [(["t"], [1])] [⟨[]⟩] 1 1 (by decide)
    ⟨⟨[]⟩, by decide, rfl⟩

/-- C9 witness: the containment/equality theorem instantiated at concrete
lists, including a permuted pair. -/
theorem contains_equal_properties_witness :
    (contains [1, 2] [2] = true ↔ ∀ e ∈ ([2] : List Source), e ∈ ([1, 2] : List Source)) ∧
      contains [1, 2] ([] : List Source) = true ∧
      contains [1, 2] [1, 2] = true ∧
      (equal [1, 2] [2, 1] = true ↔
        ∀ e : Source, e ∈ ([1, 2] : List Source) ↔ e ∈ ([2, 1] : List Source)) :=
  contains_equal_properties [1, 2] [2] [1, 2] [2, 1]
